import Mathlib

/-!
# Verification of the stockbacktest ingestion/aggregation pipeline

Shallow embedding of the three source files of `json50841/stockbacktest`:

* `src/unnamed/part_000` — OHLCV path: `parseCSV` maps raw rows to
  candle records, silently filters invalid rows, and sorts ascending by
  date; the component then computes the initial visible window
  (last 150 bars).
* `src/backtest-viewer/src/App.js` — Trade path, variant A: maps raw
  rows to trade records (columns `Entry Date, Exit Date, Direction,
  Shares, Entry Price, Exit Price, PnL ($), Recovery Mode`), builds the
  equity curve with a running accumulator rounded to 2 decimals for the
  output field, and computes summary statistics.
* `src/unnamed/part_001` — Trade path, variant B: same shape with
  columns `Entry Date, Exit Date, Entry Price, Exit Price, PnL`,
  equity rounded to 6 decimals, total PnL displayed at 4 decimals.

JavaScript numbers are modelled as `Option ℚ` where `none` is the NaN
sentinel; host coercions (`Number`, `parseFloat`, `parseInt`,
`new Date`, `toFixed`) are modelled as executable functions on decimal
literals / ISO date strings, with NaN-propagating arithmetic.

The rational operations are spelled with `mkRat` (rather than the
`@[irreducible]` field operations of `ℚ`) so that every definition
evaluates by kernel reduction; bridge lemmas identify them with the
ordinary field operations.
-/

/-! ## Kernel-computable rational arithmetic -/

/-- Addition on `ℚ`, spelled via `mkRat` so it evaluates in the
kernel. -/
def qadd (a b : ℚ) : ℚ := mkRat (a.num * b.den + b.num * a.den) (a.den * b.den)

/-- Division of a rational by a natural number, spelled via `mkRat`. -/
def qdivNat (a : ℚ) (n : ℕ) : ℚ := mkRat a.num (a.den * n)

/-- Multiplication of a rational by a natural number, spelled via
`mkRat`. -/
def qmulNat (a : ℚ) (n : ℕ) : ℚ := mkRat (a.num * n) a.den

theorem qadd_eq (a b : ℚ) : qadd a b = a + b := (Rat.add_def' a b).symm

theorem qdivNat_eq (a : ℚ) (n : ℕ) : qdivNat a n = a / n := by
  conv_rhs => rw [← Rat.num_div_den a]
  rw [qdivNat, Rat.mkRat_eq_divInt, Rat.divInt_eq_div, div_div]
  push_cast
  rfl

theorem qmulNat_eq (a : ℚ) (n : ℕ) : qmulNat a n = a * n := by
  conv_rhs => rw [← Rat.num_div_den a]
  rw [qmulNat, Rat.mkRat_eq_divInt, Rat.divInt_eq_div, div_mul_eq_mul_div]
  push_cast
  rfl

/-- The integer nearest `q * 10 ^ n`, ties toward +∞ (the ECMAScript
`toFixed` rule: "if there are two such n, pick the larger n"),
computed with integer division so it evaluates in the kernel. -/
def jsRound10 (n : ℕ) (q : ℚ) : ℤ := (2 * q.num * 10 ^ n + q.den) / (2 * (q.den : ℤ))

/-- `x` rounded to `n` decimal places, as `Number(x.toFixed(n))`
yields it. -/
def roundQ (n : ℕ) (q : ℚ) : ℚ := mkRat (jsRound10 n q) (10 ^ n)

theorem jsRound10_eq (n : ℕ) (q : ℚ) :
    jsRound10 n q = Int.floor (q * 10 ^ n + 1 / 2) := by
  have hden : (q.den : ℚ) ≠ 0 := by
    exact_mod_cast q.den_nz
  have hq : q * 10 ^ n + 1 / 2
      = ((2 * q.num * 10 ^ n + (q.den : ℤ) : ℤ) : ℚ) / ((2 * q.den : ℕ) : ℚ) := by
    conv_lhs => rw [← Rat.num_div_den q]
    push_cast
    field_simp
    ring
  rw [hq, Rat.floor_intCast_div_natCast, jsRound10]
  push_cast
  rfl

theorem roundQ_eq (n : ℕ) (q : ℚ) :
    roundQ n q = ((Int.floor (q * 10 ^ n + 1 / 2) : ℤ) : ℚ) / 10 ^ n := by
  rw [roundQ, Rat.mkRat_eq_divInt, Rat.divInt_eq_div, jsRound10_eq]
  push_cast
  rfl

/-- Rounding to `n` decimals is idempotent. -/
theorem roundQ_idem (n : ℕ) (q : ℚ) : roundQ n (roundQ n q) = roundQ n q := by
  rw [roundQ_eq n q, roundQ_eq]
  have hpow : ((10 : ℚ) ^ n) ≠ 0 := by positivity
  rw [div_mul_cancel₀ _ hpow]
  norm_num [Int.floor_int_add]

/-! ## JavaScript number model -/

/-- A JavaScript number: `none` is the NaN sentinel, `some q` a
(finite) numeric value modelled as a rational. -/
abbrev JSNum := Option ℚ

/-- JS `+` on numbers: NaN is absorbing on either side. -/
def jsAdd (a b : JSNum) : JSNum :=
  match a, b with
  | some x, some y => some (qadd x y)
  | _, _ => none

/-- `Number(x.toFixed(n))` on a JS number: rounds a numeric value to
`n` decimals; `NaN.toFixed(n)` is the string `"NaN"` and
`Number("NaN")` is NaN again, so the sentinel is preserved. -/
def toFixedNum (n : ℕ) (x : JSNum) : JSNum := x.map (roundQ n)

/-- JS `x > 0` comparison: false on NaN. -/
def jsGtZero (x : JSNum) : Bool :=
  match x with
  | some q => decide (0 < q)
  | none => false

/-! ## Host string-to-number coercions

Each is modelled on the fragment of ECMAScript syntax the repository's
data files exercise: optional sign, decimal digits with an optional
fractional part (no exponents, no hex, no infinity literal). -/

/-- Numeric value of a list of decimal digit characters. -/
def digitsVal (cs : List Char) : ℕ :=
  cs.foldl (fun a c => a * 10 + (c.toNat - 48)) 0

/-- Value `i.f` of an integer part together with a fractional digit
string, as a rational. -/
def decValue (intPart fracPart : List Char) : ℚ :=
  mkRat ((digitsVal intPart : ℤ) * 10 ^ fracPart.length + digitsVal fracPart)
    (10 ^ fracPart.length)

/-- Parse an unsigned decimal literal (`123`, `123.45`, `.5`, `7.`)
that must span the whole input; `none` if the shape is wrong or no
digit is present. -/
def decLitVal (cs : List Char) : Option ℚ :=
  let intPart := cs.takeWhile Char.isDigit
  let rest := cs.dropWhile Char.isDigit
  match rest with
  | [] => if intPart = [] then none else some (decValue intPart [])
  | '.' :: rest2 =>
    let fracPart := rest2.takeWhile Char.isDigit
    let rest3 := rest2.dropWhile Char.isDigit
    if rest3 = [] ∧ (intPart ≠ [] ∨ fracPart ≠ []) then
      some (decValue intPart fracPart)
    else none
  | _ => none

/-- Signed decimal literal spanning the whole input. -/
def signedDecLitVal (cs : List Char) : Option ℚ :=
  match cs with
  | '-' :: rest => (decLitVal rest).map Neg.neg
  | '+' :: rest => decLitVal rest
  | _ => decLitVal cs

/-- Model of the JS `Number(string)` coercion: whitespace is trimmed,
the empty (or all-whitespace) string converts to `0`, anything that is
not a complete decimal literal is NaN. -/
def jsNumber (s : String) : JSNum :=
  let t := ((s.toList.dropWhile Char.isWhitespace).reverse.dropWhile
      Char.isWhitespace).reverse
  if t = [] then some 0 else signedDecLitVal t

/-- `Number` applied to a possibly-absent field: `Number(undefined)`
is NaN. -/
def jsNumberOpt (s : Option String) : JSNum := s.bind jsNumber

/-- Unsigned decimal-literal value of the longest numeric leading part
of the input (trailing junk ignored); `none` when no digit occurs in
that leading part. -/
def floatLeadVal (cs : List Char) : Option ℚ :=
  let intPart := cs.takeWhile Char.isDigit
  let rest := cs.dropWhile Char.isDigit
  match rest with
  | '.' :: rest2 =>
    let fracPart := rest2.takeWhile Char.isDigit
    if intPart = [] ∧ fracPart = [] then none
    else some (decValue intPart fracPart)
  | _ => if intPart = [] then none else some (decValue intPart [])

/-- Model of JS `parseFloat(string)`: skip leading whitespace, read an
optional sign and the longest decimal-literal leading part; NaN when
no digits are found. -/
def jsParseFloat (s : String) : JSNum :=
  match s.toList.dropWhile Char.isWhitespace with
  | '-' :: rest => (floatLeadVal rest).map Neg.neg
  | '+' :: rest => floatLeadVal rest
  | cs => floatLeadVal cs

/-- Longest leading run of decimal digits; `none` when empty. -/
def digitsLeadVal (cs : List Char) : Option ℕ :=
  let d := cs.takeWhile Char.isDigit
  if d = [] then none else some (digitsVal d)

/-- Model of JS `parseInt(string, 10)`: skip leading whitespace, read
an optional sign and the longest run of decimal digits (trailing junk
ignored); NaN when no digits are found. -/
def jsParseInt (s : String) : Option ℤ :=
  match s.toList.dropWhile Char.isWhitespace with
  | '-' :: rest => (digitsLeadVal rest).map (fun n => -(n : ℤ))
  | '+' :: rest => (digitsLeadVal rest).map (fun n => (n : ℤ))
  | cs => (digitsLeadVal cs).map (fun n => (n : ℤ))

/-- Model of the JS `Date` constructor restricted to ISO `YYYY-MM-DD`
calendar-date strings, which is the date format of the repository's
data files: a well-formed in-range date yields an integer key ordering
dates chronologically (`y*10000 + m*100 + d`); any other string is an
Invalid Date (`none`). -/
def jsParseDate (s : String) : Option ℤ :=
  match s.toList with
  | [y1, y2, y3, y4, '-', m1, m2, '-', d1, d2] =>
    if ([y1, y2, y3, y4, m1, m2, d1, d2].all Char.isDigit) then
      let m := digitsVal [m1, m2]
      let d := digitsVal [d1, d2]
      if 1 ≤ m ∧ m ≤ 12 ∧ 1 ≤ d ∧ d ≤ 31 then
        some ((digitsVal [y1, y2, y3, y4] : ℤ) * 10000 + (m : ℤ) * 100 + (d : ℤ))
      else none
    else none
  | _ => none

/-- JS string truthiness on a possibly-absent field: `undefined` and
the empty string are falsy, every other string truthy. Models the
`d.Field ? … : fallback` pattern of `parseCSV`. -/
def strTruthy (s : Option String) : Option String :=
  match s with
  | some str => if str = "" then none else some str
  | none => none

/-! ## OHLCV path (`src/unnamed/part_000`) -/

/-- A raw CSV row of the OHLCV schema, as the row parser delivers it:
each column is a string, `none` when the column is absent. -/
structure RawOHLCVRow where
  Date : Option String
  Open : Option String
  High : Option String
  Low : Option String
  Close : Option String
  Volume : Option String
deriving DecidableEq

/-- A mapped OHLCV record before filtering, mirroring
`{ date, open, high, low, close, volume }` in `parseCSV`; `none`
stands for `null`/Invalid Date in the date field and NaN in the
numeric fields. `open` is a Lean keyword, hence `open_`. -/
structure OHLCVRecord where
  date : Option ℤ
  open_ : JSNum
  high : JSNum
  low : JSNum
  close : JSNum
  volume : Option ℤ
deriving DecidableEq

/-- The `.map` step of `parseCSV`: `d.Date ? new Date(d.Date) : null`
and friends — a falsy (absent/empty) field yields `null`/NaN, else the
host coercion runs. -/
def toOHLCV (d : RawOHLCVRow) : OHLCVRecord :=
  { date := (strTruthy d.Date).bind jsParseDate
    open_ := (strTruthy d.Open).bind jsParseFloat
    high := (strTruthy d.High).bind jsParseFloat
    low := (strTruthy d.Low).bind jsParseFloat
    close := (strTruthy d.Close).bind jsParseFloat
    volume := (strTruthy d.Volume).bind jsParseInt }

/-- The `.filter` predicate of `parseCSV`: the date is a valid `Date`
and none of the five numeric fields is NaN. -/
def validOHLCV (r : OHLCVRecord) : Bool :=
  r.date.isSome && r.open_.isSome && r.high.isSome && r.low.isSome &&
    r.close.isSome && r.volume.isSome

/-- Sort key: the timestamp of the (valid) record; the comparator
`(a, b) => a.date - b.date` subtracts the dates' time values. -/
def dateKey (r : OHLCVRecord) : ℤ := r.date.getD 0

/-- The comparator `(a, b) => a.date - b.date` as the ordering it
induces: `a` sorts no later than `b` when its date is no later. -/
def dateLe (a b : OHLCVRecord) : Prop := dateKey a ≤ dateKey b

instance : DecidableRel dateLe := fun a b =>
  inferInstanceAs (Decidable (dateKey a ≤ dateKey b))

instance : IsTotal OHLCVRecord dateLe := ⟨fun a b => le_total (dateKey a) (dateKey b)⟩

instance : IsTrans OHLCVRecord dateLe := ⟨fun _ _ _ => le_trans⟩

/-- The sort step of `parseCSV`: `raw.sort((a, b) => a.date - b.date)`
— a stable ascending sort by date (ECMAScript requires `Array#sort` to
be stable; any stable sort produces the same output, here realised as
an insertion sort so that it evaluates in the kernel). -/
def sortByDate (l : List OHLCVRecord) : List OHLCVRecord :=
  l.insertionSort dateLe

/-- `parseCSV` end to end on already-split rows: map the six columns,
silently filter out invalid rows, sort ascending by date. -/
def parseCSV (rows : List RawOHLCVRow) : List OHLCVRecord :=
  sortByDate ((rows.map toOHLCV).filter validOHLCV)

/-- `Math.min(150, chartData.length)` — the number of bars initially
shown. -/
def displayCount (n : ℕ) : ℕ := min 150 n

/-- `Math.max(0, chartData.length - displayCount)` — index of the
first visible bar (truncated subtraction plays the role of the
`Math.max(0, ·)` clamp). -/
def startIndex (n : ℕ) : ℕ := max 0 (n - displayCount n)

/-- The initial visible window `[start, end]` of the chart:
`xAccessor(chartData[startIndex])` to
`xAccessor(chartData[chartData.length - 1])`, with the date as
accessor value; `none` when the data is empty (the component never
reaches this code then — it returns the loading view first). -/
def xExtents (l : List OHLCVRecord) : Option (ℤ × ℤ) :=
  match l.get? (startIndex l.length), l.get? (l.length - 1) with
  | some a, some b => some (dateKey a, dateKey b)
  | _, _ => none

/-! ## Trade path, variant A (`src/backtest-viewer/src/App.js`) -/

/-- A raw CSV row of the Trade schema, variant A (columns
`Entry Date, Exit Date, Direction, Shares, Entry Price, Exit Price,
PnL ($), Recovery Mode`); `none` = absent column. -/
structure RawTradeRowA where
  entryDate : Option String
  exitDate : Option String
  direction : Option String
  shares : Option String
  entryPrice : Option String
  exitPrice : Option String
  pnl : Option String
  recoveryMode : Option String
deriving DecidableEq

/-- A normalized trade record of variant A, mirroring the object
built by `parsed.data.map((r) => ({ … }))`. -/
structure TradeRecordA where
  entryDate : Option String
  exitDate : Option String
  direction : Option String
  shares : JSNum
  entryPrice : JSNum
  exitPrice : JSNum
  pnl : JSNum
  recovery : Bool
deriving DecidableEq

/-- One row of the variant-A map: string fields pass through,
numeric fields via `Number(...)`, and
`recovery: r["Recovery Mode"] === "True"`. -/
def mkTradeA (r : RawTradeRowA) : TradeRecordA :=
  { entryDate := r.entryDate
    exitDate := r.exitDate
    direction := r.direction
    shares := jsNumberOpt r.shares
    entryPrice := jsNumberOpt r.entryPrice
    exitPrice := jsNumberOpt r.exitPrice
    pnl := jsNumberOpt r.pnl
    recovery := decide (r.recoveryMode = some "True") }

/-- The variant-A Trade normalizer: a plain map, no filtering. -/
def tradeRowsA (rows : List RawTradeRowA) : List TradeRecordA :=
  rows.map mkTradeA

/-! ## Trade path, variant B (`src/unnamed/part_001`) -/

/-- A raw CSV row of the Trade schema, variant B (columns
`Entry Date, Exit Date, Entry Price, Exit Price, PnL`). -/
structure RawTradeRowB where
  entryDate : Option String
  exitDate : Option String
  entryPrice : Option String
  exitPrice : Option String
  pnl : Option String
deriving DecidableEq

/-- A normalized trade record of variant B. -/
structure TradeRecordB where
  entryDate : Option String
  exitDate : Option String
  entryPrice : JSNum
  exitPrice : JSNum
  pnl : JSNum
deriving DecidableEq

/-- One row of the variant-B map. -/
def mkTradeB (r : RawTradeRowB) : TradeRecordB :=
  { entryDate := r.entryDate
    exitDate := r.exitDate
    entryPrice := jsNumberOpt r.entryPrice
    exitPrice := jsNumberOpt r.exitPrice
    pnl := jsNumberOpt r.pnl }

/-- The variant-B Trade normalizer: a plain map, no filtering. -/
def tradeRowsB (rows : List RawTradeRowB) : List TradeRecordB :=
  rows.map mkTradeB

/-! ## Equity aggregator (both trade variants)

```js
let cumulative = 0;
const equityRows = rows.map((t) => {
  cumulative += t.pnl;
  return { date: t.entryDate, pnl: t.pnl, equity: Number(cumulative.toFixed(p)) };
});
```
with precision `p = 2` in variant A and `p = 6` in variant B. -/

/-- One point of the equity curve. -/
structure EquityPoint where
  date : Option String
  pnl : JSNum
  equity : JSNum
deriving DecidableEq

/-- The stateful `.map` over the trades as an explicit accumulator
scan, generic in the `toFixed` precision; the carried accumulator
`cum` is unrounded, only the emitted `equity` field is rounded. -/
def equityScan (prec : ℕ) (cum : JSNum) :
    List (Option String × JSNum) → List EquityPoint
  | [] => []
  | t :: ts =>
    let cum2 := jsAdd cum t.2
    { date := t.1, pnl := t.2, equity := toFixedNum prec cum2 } ::
      equityScan prec cum2 ts

/-- The `(entryDate, pnl)` view of a variant-A trade used by the
equity map. -/
def tradeKeyA (t : TradeRecordA) : Option String × JSNum := (t.entryDate, t.pnl)

/-- The `(entryDate, pnl)` view of a variant-B trade. -/
def tradeKeyB (t : TradeRecordB) : Option String × JSNum := (t.entryDate, t.pnl)

/-- Variant-A equity curve: accumulator starts at `0`, output rounded
to 2 decimals. -/
def equityRowsA (rows : List TradeRecordA) : List EquityPoint :=
  equityScan 2 (some 0) (rows.map tradeKeyA)

/-- Variant-B equity curve: accumulator starts at `0`, output rounded
to 6 decimals. -/
def equityRowsB (rows : List TradeRecordB) : List EquityPoint :=
  equityScan 6 (some 0) (rows.map tradeKeyB)

/-- Running JS sum of a list of numbers starting from `cum`. -/
def jsSumFrom (cum : JSNum) (l : List JSNum) : JSNum := l.foldl jsAdd cum

/-! ## Summary reducer

```js
const totalPnL = equity[equity.length - 1].equity.toFixed(p);
const winRate = ((trades.filter((t) => t.pnl > 0).length / trades.length) * 100).toFixed(2);
```
with `p = 2` in variant A and `p = 4` in variant B. -/

/-- The scalar analytics shown above the chart. -/
structure SummaryStats where
  totalTrades : ℕ
  winRate : JSNum
  totalPnL : JSNum
deriving DecidableEq

/-- `trades.filter((t) => t.pnl > 0).length` for variant A. -/
def countWinsA (trades : List TradeRecordA) : ℕ :=
  (trades.filter (fun t => jsGtZero t.pnl)).length

/-- `trades.filter((t) => t.pnl > 0).length` for variant B. -/
def countWinsB (trades : List TradeRecordB) : ℕ :=
  (trades.filter (fun t => jsGtZero t.pnl)).length

/-- `((wins / total) * 100).toFixed(2)` as a value: `0/0` is NaN when
the trade list is empty (`wins ≤ total`, so `total = 0` forces
`wins = 0`), otherwise the exact percentage rounded to 2 decimals. -/
def winRateVal (wins total : ℕ) : JSNum :=
  if total = 0 then none
  else some (roundQ 2 (qmulNat (qdivNat (wins : ℚ) total) 100))

/-- Variant-A summary. `equity[equity.length - 1]` on an empty array
is `undefined` and `.equity` on it throws, hence `none` for empty
input; the component guards this by returning the loading view
first. -/
def summaryA (trades : List TradeRecordA) (equity : List EquityPoint) :
    Option SummaryStats :=
  equity.getLast?.map fun lastPt =>
    { totalTrades := trades.length
      winRate := winRateVal (countWinsA trades) trades.length
      totalPnL := toFixedNum 2 lastPt.equity }

/-- Variant-B summary (total PnL displayed at 4 decimals). -/
def summaryB (trades : List TradeRecordB) (equity : List EquityPoint) :
    Option SummaryStats :=
  equity.getLast?.map fun lastPt =>
    { totalTrades := trades.length
      winRate := winRateVal (countWinsB trades) trades.length
      totalPnL := toFixedNum 4 lastPt.equity }

/-! ## Render guard (`if (!equity.length) return <Loading/>`) -/

/-- What the variant-A component renders. -/
inductive RenderA
  | loading
  | view (stats : Option SummaryStats) (equity : List EquityPoint)
      (trades : List TradeRecordA)
deriving DecidableEq

/-- The variant-A render step: the loading view is returned before
any summary computation whenever the equity array is empty. -/
def appRenderA (trades : List TradeRecordA) (equity : List EquityPoint) :
    RenderA :=
  if equity.length = 0 then RenderA.loading
  else RenderA.view (summaryA trades equity) equity trades

/-- What the variant-B component renders. -/
inductive RenderB
  | loading
  | view (stats : Option SummaryStats) (equity : List EquityPoint)
      (trades : List TradeRecordB)
deriving DecidableEq

/-- The variant-B render step. -/
def appRenderB (trades : List TradeRecordB) (equity : List EquityPoint) :
    RenderB :=
  if equity.length = 0 then RenderB.loading
  else RenderB.view (summaryB trades equity) equity trades

/-- The variant-A pipeline from raw rows to the rendered result. -/
def appA (raw : List RawTradeRowA) : RenderA :=
  appRenderA (tradeRowsA raw) (equityRowsA (tradeRowsA raw))

/-- The variant-B pipeline from raw rows to the rendered result. -/
def appB (raw : List RawTradeRowB) : RenderB :=
  appRenderB (tradeRowsB raw) (equityRowsB (tradeRowsB raw))

/-! ## Helper lemmas on the equity scan -/

theorem jsAdd_none_right (a : JSNum) : jsAdd a none = none := by
  cases a <;> rfl

theorem jsAdd_none_left (a : JSNum) : jsAdd none a = none := rfl

theorem toFixedNum_none (n : ℕ) : toFixedNum n none = none := rfl

theorem equityScan_length (prec : ℕ) (cum : JSNum)
    (l : List (Option String × JSNum)) :
    (equityScan prec cum l).length = l.length := by
  induction l generalizing cum with
  | nil => rfl
  | cons t ts ih => simp [equityScan, ih]

/-- The closed form of the scan: point `i` carries trade `i`'s date
and pnl, and its equity is the rounding of the unrounded running sum
of the first `i + 1` pnl values. -/
theorem equityScan_get? (prec : ℕ) (cum : JSNum)
    (l : List (Option String × JSNum)) (i : ℕ) :
    (equityScan prec cum l).get? i =
      (l.get? i).map fun t =>
        { date := t.1, pnl := t.2
          equity := toFixedNum prec
            (jsSumFrom cum ((l.take (i + 1)).map Prod.snd)) } := by
  induction l generalizing cum i with
  | nil => simp [equityScan]
  | cons t ts ih =>
    cases i with
    | zero => simp [equityScan, jsSumFrom]
    | succ j => simpa [equityScan, jsSumFrom] using ih (jsAdd cum t.2) j

theorem jsSumFrom_none (l : List JSNum) : jsSumFrom none l = none := by
  induction l with
  | nil => rfl
  | cons x xs ih => simpa [jsSumFrom, jsAdd] using ih

/-- A NaN anywhere in the list contaminates the whole running sum. -/
theorem jsSumFrom_of_mem_none (cum : JSNum) (l : List JSNum)
    (h : none ∈ l) : jsSumFrom cum l = none := by
  induction l generalizing cum with
  | nil => cases h
  | cons x xs ih =>
    rcases List.mem_cons.mp h with rfl | hx
    · simpa [jsSumFrom, jsAdd_none_right] using jsSumFrom_none xs
    · exact ih _ hx

theorem toFixedNum_idem (n : ℕ) (x : JSNum) :
    toFixedNum n (toFixedNum n x) = toFixedNum n x := by
  cases x with
  | none => rfl
  | some q => simp [toFixedNum, roundQ_idem]

/-- A NaN pnl at index `i` contaminates the equity at every index
`j ≥ i`. -/
theorem equityScan_equity_none (prec : ℕ) (l : List (Option String × JSNum))
    (i j : ℕ) (hnan : (l.get? i).map Prod.snd = some none) (hij : i ≤ j)
    (hj : j < l.length) :
    ((equityScan prec (some 0) l).get? j).map EquityPoint.equity = some none := by
  rw [equityScan_get?]
  rcases List.get?_eq_get (by omega : j < l.length) with hget
  rcases Option.map_eq_some'.mp hnan with ⟨ti, hti, hpnl⟩
  have htake : (l.take (j + 1)).get? i = some ti := by
    rw [List.get?_take (by omega : i < j + 1)]; exact hti
  have hmem : (none : JSNum) ∈ (l.take (j + 1)).map Prod.snd := by
    exact hpnl ▸ List.mem_map_of_mem Prod.snd (List.get?_mem htake)
  rw [hget]
  show some (toFixedNum prec (jsSumFrom (some 0) ((l.take (j + 1)).map Prod.snd)))
    = some none
  rw [jsSumFrom_of_mem_none _ _ hmem, toFixedNum_none]

/-! ## Demo inputs used by concrete parts of the claims -/

/-- A minimal variant-A trade with a given pnl. -/
def tradeA (p : ℚ) : TradeRecordA :=
  { entryDate := none, exitDate := none, direction := none, shares := none
    entryPrice := none, exitPrice := none, pnl := some p, recovery := false }

/-- A minimal variant-A trade whose pnl is the NaN sentinel. -/
def nanTradeA : TradeRecordA :=
  { entryDate := none, exitDate := none, direction := none, shares := none
    entryPrice := none, exitPrice := none, pnl := none, recovery := false }

/-- A minimal variant-B trade with a given pnl. -/
def tradeB (p : ℚ) : TradeRecordB :=
  { entryDate := none, exitDate := none, entryPrice := none
    exitPrice := none, pnl := some p }

/-- A minimal variant-B trade whose pnl is the NaN sentinel. -/
def nanTradeB : TradeRecordB :=
  { entryDate := none, exitDate := none, entryPrice := none
    exitPrice := none, pnl := none }

/-! ## C1 -/

/-- C1: for every TradeRecord sequence, the Equity Aggregator produces
a same-length EquityPoint sequence by a left-to-right scan with an
accumulator starting at 0; each output's equity equals the accumulator
after adding that row's pnl — i.e. the rounding of the *unrounded*
running sum of the first `i + 1` pnl values, so rounding touches only
the output field, never the carried accumulator; in particular, for
pnl values `[10, -3, 5]` the equity sequence is `[10, 7, 12]`. -/
theorem equityAggregator_is_rounded_prefix_sum_scan :
    (∀ trades : List TradeRecordA,
      (equityRowsA trades).length = trades.length ∧
      ∀ i : ℕ, (equityRowsA trades).get? i =
        (trades.get? i).map fun t =>
          { date := t.entryDate, pnl := t.pnl
            equity := toFixedNum 2
              (jsSumFrom (some 0) ((trades.take (i + 1)).map TradeRecordA.pnl)) }) ∧
    (∀ trades : List TradeRecordB,
      (equityRowsB trades).length = trades.length ∧
      ∀ i : ℕ, (equityRowsB trades).get? i =
        (trades.get? i).map fun t =>
          { date := t.entryDate, pnl := t.pnl
            equity := toFixedNum 6
              (jsSumFrom (some 0) ((trades.take (i + 1)).map TradeRecordB.pnl)) }) ∧
    (equityRowsA [tradeA 10, tradeA (-3), tradeA 5]).map EquityPoint.equity
      = [some 10, some 7, some 12] := by
  refine ⟨fun trades => ⟨?_, ?_⟩, fun trades => ⟨?_, ?_⟩, ?_⟩
  · simpa [equityRowsA] using equityScan_length 2 (some 0) (trades.map tradeKeyA)
  · intro i
    rw [equityRowsA, equityScan_get?]
    simp only [List.get?_map, Option.map_map, ← List.map_take, List.map_map]
    rfl
  · simpa [equityRowsB] using equityScan_length 6 (some 0) (trades.map tradeKeyB)
  · intro i
    rw [equityRowsB, equityScan_get?]
    simp only [List.get?_map, Option.map_map, ← List.map_take, List.map_map]
    rfl
  · decide

/-! ## C3 -/

/-- C3: in the Equity Aggregator, if any trade's pnl is the NaN
sentinel then every EquityPoint equity from that index onward is the
sentinel (the accumulator becomes NaN and propagates), and every input
row still yields exactly one output point (same length, no filtering,
no reordering, no silent recovery). -/
theorem equityAggregator_nan_propagates :
    (∀ (trades : List TradeRecordA) (i j : ℕ),
      (trades.get? i).map TradeRecordA.pnl = some none → i ≤ j →
      j < trades.length →
        ((equityRowsA trades).get? j).map EquityPoint.equity = some none ∧
        (equityRowsA trades).length = trades.length) ∧
    (∀ (trades : List TradeRecordB) (i j : ℕ),
      (trades.get? i).map TradeRecordB.pnl = some none → i ≤ j →
      j < trades.length →
        ((equityRowsB trades).get? j).map EquityPoint.equity = some none ∧
        (equityRowsB trades).length = trades.length) := by
  constructor
  · intro trades i j hnan hij hj
    refine ⟨?_, by simpa [equityRowsA] using equityScan_length 2 (some 0) (trades.map tradeKeyA)⟩
    rw [equityRowsA]
    refine equityScan_equity_none 2 _ i j ?_ hij (by simpa using hj)
    simpa [List.get?_map, Option.map_map, tradeKeyA, Function.comp] using hnan
  · intro trades i j hnan hij hj
    refine ⟨?_, by simpa [equityRowsB] using equityScan_length 6 (some 0) (trades.map tradeKeyB)⟩
    rw [equityRowsB]
    refine equityScan_equity_none 6 _ i j ?_ hij (by simpa using hj)
    simpa [List.get?_map, Option.map_map, tradeKeyB, Function.comp] using hnan

/-- Witness for C3: in `[1, NaN, 2]` the equity at index 2 is still
the sentinel, and the output has one point per input row. -/
theorem equityAggregator_nan_propagates_witness :
    (((equityRowsA [tradeA 1, nanTradeA, tradeA 2]).get? 2).map EquityPoint.equity
        = some none ∧
      (equityRowsA [tradeA 1, nanTradeA, tradeA 2]).length = 3) ∧
    (((equityRowsB [tradeB 1, nanTradeB, tradeB 2]).get? 2).map EquityPoint.equity
        = some none ∧
      (equityRowsB [tradeB 1, nanTradeB, tradeB 2]).length = 3) :=
  ⟨equityAggregator_nan_propagates.1 [tradeA 1, nanTradeA, tradeA 2] 1 2
      (by decide) (by decide) (by decide),
    equityAggregator_nan_propagates.2 [tradeB 1, nanTradeB, tradeB 2] 1 2
      (by decide) (by decide) (by decide)⟩

/-! ## C4 -/

/-- C4: the Trade-schema normalizer never drops a row — every RawRow
yields exactly one TradeRecord at the same index; a numeric field
whose coercion fails becomes the NaN sentinel while the row is kept;
and the Recovery Mode boolean is true exactly when the source text is
the literal string `"True"`, false for everything else (including an
absent column). -/
theorem tradeNormalizer_keeps_every_row :
    (∀ rows : List RawTradeRowA, (tradeRowsA rows).length = rows.length) ∧
    (∀ rows : List RawTradeRowB, (tradeRowsB rows).length = rows.length) ∧
    (∀ (rows : List RawTradeRowA) (i : ℕ) (r : RawTradeRowA),
      rows.get? i = some r → (tradeRowsA rows).get? i = some (mkTradeA r)) ∧
    (∀ (rows : List RawTradeRowA) (i : ℕ) (r : RawTradeRowA),
      rows.get? i = some r → jsNumberOpt r.pnl = none →
        ((tradeRowsA rows).get? i).map TradeRecordA.pnl = some none) ∧
    (∀ r : RawTradeRowA,
      ((mkTradeA r).recovery = true ↔ r.recoveryMode = some "True")) := by
  refine ⟨fun rows => List.length_map rows mkTradeA,
    fun rows => List.length_map rows mkTradeB, ?_, ?_, ?_⟩
  · intro rows i r hr
    rw [tradeRowsA, List.get?_map, hr, Option.map_some']
  · intro rows i r hr hnan
    rw [tradeRowsA, List.get?_map, hr, Option.map_some', Option.map_some']
    show some (jsNumberOpt r.pnl) = some none
    rw [hnan]
  · intro r
    simp [mkTradeA]

/-- The concrete raw row used by the C4 witness. -/
def demoRawRowA : RawTradeRowA :=
  { entryDate := some "2020-01-02", exitDate := none
    direction := some "LONG", shares := some "7"
    entryPrice := some "1.5", exitPrice := some "2.5"
    pnl := some "abc", recoveryMode := some "True" }

/-- Witness for C4: a concrete row with unparsable pnl text is kept
with the sentinel, and recovery reflects the literal `"True"` test. -/
theorem tradeNormalizer_keeps_every_row_witness :
    ((tradeRowsA [demoRawRowA]).get? 0).map TradeRecordA.pnl = some none ∧
    (mkTradeA demoRawRowA).recovery = true :=
  ⟨tradeNormalizer_keeps_every_row.2.2.2.1 [demoRawRowA] 0 demoRawRowA
      (by decide) (by decide),
    (tradeNormalizer_keeps_every_row.2.2.2.2 demoRawRowA).mpr (by decide)⟩

/-! ## C10 -/

/-- C10: in the Trade-schema normalizer, a numeric field that is
present but holds the empty string coerces to 0, not to the NaN
sentinel; an absent column coerces to the sentinel; and a present
field only yields the sentinel when its text is non-empty (and fails
numeric parsing). Stated for the `shares` and `pnl` fields of
variant A. -/
theorem tradeNormalizer_empty_string_is_zero :
    (∀ r : RawTradeRowA, r.shares = some "" → (mkTradeA r).shares = some 0) ∧
    (∀ r : RawTradeRowA, r.pnl = some "" → (mkTradeA r).pnl = some 0) ∧
    (∀ r : RawTradeRowA, r.shares = none → (mkTradeA r).shares = none) ∧
    (∀ s : String, jsNumberOpt (some s) = none → s ≠ "") := by
  refine ⟨?_, ?_, ?_, ?_⟩
  · intro r h
    show jsNumberOpt r.shares = some 0
    rw [h]; decide
  · intro r h
    show jsNumberOpt r.pnl = some 0
    rw [h]; decide
  · intro r h
    show jsNumberOpt r.shares = none
    rw [h]; rfl
  · intro s hs h
    rw [h] at hs
    exact absurd hs (by decide)

/-- A raw row whose numeric columns hold empty strings. -/
def emptyFieldsRowA : RawTradeRowA :=
  { entryDate := none, exitDate := none, direction := none
    shares := some "", entryPrice := none, exitPrice := none
    pnl := some "", recoveryMode := none }

/-- A raw row with every column absent. -/
def absentFieldsRowA : RawTradeRowA :=
  { entryDate := none, exitDate := none, direction := none
    shares := none, entryPrice := none, exitPrice := none
    pnl := none, recoveryMode := none }

/-- Witness for C10: the empty string, an absent column, and
non-numeric text under `Number(...)`. -/
theorem tradeNormalizer_empty_string_is_zero_witness :
    (mkTradeA emptyFieldsRowA).shares = some 0 ∧
    (mkTradeA emptyFieldsRowA).pnl = some 0 ∧
    (mkTradeA absentFieldsRowA).shares = none ∧
    "abc" ≠ "" :=
  ⟨tradeNormalizer_empty_string_is_zero.1 _ rfl,
    tradeNormalizer_empty_string_is_zero.2.1 _ rfl,
    tradeNormalizer_empty_string_is_zero.2.2.1 _ rfl,
    tradeNormalizer_empty_string_is_zero.2.2.2 "abc" (by decide)⟩

/-! ## C2 -/

/-- A raw OHLCV row whose Volume text is a negative integer; every
field parses, so the row passes `parseCSV`'s filter. -/
def negVolumeRow : RawOHLCVRow :=
  { Date := some "2020-01-05", Open := some "1", High := some "2"
    Low := some "0.5", Close := some "1.5", Volume := some "-5" }

/-- Counterexample to C2 as stated: the claim's output invariant says
the volume of every normalized record is a *non-negative* integer, but
`parseInt` accepts a sign, so a row with Volume `"-5"` passes the
filter and appears in the output with volume `-5`. -/
theorem ohlcvNormalizer_negative_volume_cex :
    (parseCSV [negVolumeRow]).map OHLCVRecord.volume = [some (-5)] ∧
    ¬ (∀ r ∈ parseCSV [negVolumeRow], 0 ≤ r.volume.getD 0) := by decide

/-- C2 (amended): the normalized sequence contains exactly those input
rows whose six fields are present (non-empty) and parse to a valid
date and valid numbers — a row with an empty Volume, or with a
malformed Date string, is excluded — and every record in the output
has all six fields present and valid, with volume an integer (possibly
negative, since `parseInt` accepts a sign). -/
theorem ohlcvNormalizer_filters_invalid_rows :
    (∀ rows : List RawOHLCVRow,
      (rows.map toOHLCV).filter validOHLCV
        = (rows.filter (fun d => validOHLCV (toOHLCV d))).map toOHLCV) ∧
    (∀ rows : List RawOHLCVRow, ∀ r ∈ parseCSV rows,
      r.date.isSome ∧ r.open_.isSome ∧ r.high.isSome ∧ r.low.isSome ∧
        r.close.isSome ∧ r.volume.isSome) ∧
    (∀ d : RawOHLCVRow, d.Volume = some "" → validOHLCV (toOHLCV d) = false) ∧
    (∀ (d : RawOHLCVRow) (s : String), d.Date = some s → jsParseDate s = none →
      validOHLCV (toOHLCV d) = false) := by
  refine ⟨fun rows => List.filter_map toOHLCV rows, ?_, ?_, ?_⟩
  · intro rows r hr
    rw [parseCSV, sortByDate] at hr
    rw [List.mem_insertionSort] at hr
    have hv := List.of_mem_filter hr
    simp only [validOHLCV, Bool.and_eq_true] at hv
    tauto
  · intro d h
    simp [validOHLCV, toOHLCV, strTruthy, h]
  · intro d s hd hs
    rcases eq_or_ne s "" with rfl | hne
    · simp [validOHLCV, toOHLCV, strTruthy, hd]
    · simp [validOHLCV, toOHLCV, strTruthy, hd, hne, hs]

/-- A fully valid raw OHLCV row. -/
def goodOHLCVRow : RawOHLCVRow :=
  { Date := some "2020-01-05", Open := some "1", High := some "2"
    Low := some "0.5", Close := some "1.5", Volume := some "10" }

/-- A raw OHLCV row with an empty Volume field. -/
def emptyVolumeRow : RawOHLCVRow :=
  { Date := some "2020-01-05", Open := some "1", High := some "2"
    Low := some "0.5", Close := some "1.5", Volume := some "" }

/-- A raw OHLCV row whose Date text does not parse. -/
def badDateRow : RawOHLCVRow :=
  { Date := some "not-a-date", Open := some "1", High := some "2"
    Low := some "0.5", Close := some "1.5", Volume := some "10" }

/-- Witness for C2 (amended): the spec's two exclusion tests — empty
Volume and malformed Date — fail validation (hence are absent from the
output), and a good row's normalized record has all six fields
present. -/
theorem ohlcvNormalizer_filters_invalid_rows_witness :
    validOHLCV (toOHLCV emptyVolumeRow) = false ∧
    validOHLCV (toOHLCV badDateRow) = false ∧
    ((toOHLCV goodOHLCVRow).date.isSome ∧ (toOHLCV goodOHLCVRow).open_.isSome ∧
      (toOHLCV goodOHLCVRow).high.isSome ∧ (toOHLCV goodOHLCVRow).low.isSome ∧
      (toOHLCV goodOHLCVRow).close.isSome ∧ (toOHLCV goodOHLCVRow).volume.isSome) :=
  ⟨ohlcvNormalizer_filters_invalid_rows.2.2.1 emptyVolumeRow rfl,
    ohlcvNormalizer_filters_invalid_rows.2.2.2 badDateRow "not-a-date" rfl (by decide),
    ohlcvNormalizer_filters_invalid_rows.2.1 [goodOHLCVRow] (toOHLCV goodOHLCVRow)
      (by decide)⟩

/-! ## C6 -/

/-- C6: the Series Orderer returns a sequence sorted ascending by
timestamp (`for all i, timestamp[i] ≤ timestamp[i+1]`) that is a
permutation of its input and is stable: any equal-timestamp
subsequence of the input survives in its original relative order. -/
theorem seriesOrderer_sorts_stably :
    (∀ (l : List OHLCVRecord) (i : ℕ) (a b : OHLCVRecord),
      (sortByDate l).get? i = some a → (sortByDate l).get? (i + 1) = some b →
        dateKey a ≤ dateKey b) ∧
    (∀ l : List OHLCVRecord, (sortByDate l).Perm l) ∧
    (∀ (l c : List OHLCVRecord),
      c.Pairwise (fun a b => dateKey a = dateKey b) → c.Sublist l →
        c.Sublist (sortByDate l)) := by
  refine ⟨?_, fun l => List.perm_insertionSort dateLe l, ?_⟩
  · intro l i a b ha hb
    have hs : List.Pairwise dateLe (sortByDate l) :=
      List.sorted_insertionSort dateLe l
    rcases List.get?_eq_some.mp ha with ⟨hia, rfl⟩
    rcases List.get?_eq_some.mp hb with ⟨hib, rfl⟩
    exact List.pairwise_iff_get.mp hs ⟨i, hia⟩ ⟨i + 1, hib⟩ (by simp)
  · intro l c hc hsub
    exact List.sublist_insertionSort (hc.imp le_of_eq) hsub

/-- A valid OHLCV record with a given date key and an `open` marker to
tell equal-date records apart. -/
def stampedRec (d marker : ℤ) : OHLCVRecord :=
  { date := some d, open_ := some (marker : ℚ), high := some 1
    low := some 1, close := some 1, volume := some 1 }

/-- Witness for C6 on `[date 3, date 1 (marker 1), date 1 (marker 2)]`:
adjacent output dates are ordered, the output is a permutation of the
input, and the two tied records keep their original relative order. -/
theorem seriesOrderer_sorts_stably_witness :
    dateKey (stampedRec 1 1) ≤ dateKey (stampedRec 1 2) ∧
    (sortByDate [stampedRec 3 0, stampedRec 1 1, stampedRec 1 2]).Perm
      [stampedRec 3 0, stampedRec 1 1, stampedRec 1 2] ∧
    [stampedRec 1 1, stampedRec 1 2].Sublist
      (sortByDate [stampedRec 3 0, stampedRec 1 1, stampedRec 1 2]) ∧
    sortByDate [stampedRec 3 0, stampedRec 1 1, stampedRec 1 2]
      = [stampedRec 1 1, stampedRec 1 2, stampedRec 3 0] :=
  ⟨seriesOrderer_sorts_stably.1 [stampedRec 3 0, stampedRec 1 1, stampedRec 1 2]
      0 (stampedRec 1 1) (stampedRec 1 2) (by decide) (by decide),
    seriesOrderer_sorts_stably.2.1 [stampedRec 3 0, stampedRec 1 1, stampedRec 1 2],
    seriesOrderer_sorts_stably.2.2 [stampedRec 3 0, stampedRec 1 1, stampedRec 1 2]
      [stampedRec 1 1, stampedRec 1 2] (by decide) (by decide),
    by decide⟩

/-! ## C7 -/

/-- C7: the initial visible window covers the last `min 150 n`
records: the window starts at index `n - min 150 n`; with 200 records
it is exactly `[timestamp[50], timestamp[199]]`; with at most 150
records it covers all of them, `[timestamp[0], timestamp[n-1]]`. -/
theorem initialWindow_covers_last_150 :
    (∀ n : ℕ, startIndex n = n - min 150 n) ∧
    (∀ (l : List OHLCVRecord) (a b : OHLCVRecord), l.length = 200 →
      l.get? 50 = some a → l.get? 199 = some b →
        xExtents l = some (dateKey a, dateKey b)) ∧
    (∀ (l : List OHLCVRecord) (a b : OHLCVRecord), l.length ≤ 150 →
      l.get? 0 = some a → l.get? (l.length - 1) = some b →
        xExtents l = some (dateKey a, dateKey b)) := by
  refine ⟨?_, ?_, ?_⟩
  · intro n
    simp [startIndex, displayCount]
  · intro l a b hlen ha hb
    have hstart : startIndex l.length = 50 := by
      rw [hlen]; rfl
    rw [xExtents, hstart, hlen]
    show (match l.get? 50, l.get? 199 with
      | some a, some b => some (dateKey a, dateKey b)
      | _, _ => none) = some (dateKey a, dateKey b)
    rw [ha, hb]
  · intro l a b hlen ha hb
    have hstart : startIndex l.length = 0 := by
      simp [startIndex, displayCount, Nat.min_eq_right hlen]
    rw [xExtents, hstart]
    show (match l.get? 0, l.get? (l.length - 1) with
      | some a, some b => some (dateKey a, dateKey b)
      | _, _ => none) = some (dateKey a, dateKey b)
    rw [ha, hb]

/-- A valid OHLCV record whose date key is its index. -/
def idxRec (i : ℕ) : OHLCVRecord :=
  { date := some (i : ℤ), open_ := some 1, high := some 1
    low := some 1, close := some 1, volume := some 1 }

/-- 200 ordered records with date keys 0..199. -/
def bigSeries : List OHLCVRecord := (List.range 200).map idxRec

/-- 80 ordered records with date keys 0..79. -/
def smallSeries : List OHLCVRecord := (List.range 80).map idxRec

set_option maxRecDepth 4000 in
/-- Witness for C7: with 200 records the window is
`[timestamp 50, timestamp 199]`; with 80 records it is
`[timestamp 0, timestamp 79]`. -/
theorem initialWindow_covers_last_150_witness :
    xExtents bigSeries = some (50, 199) ∧
    xExtents smallSeries = some (0, 79) := by
  constructor
  · rw [initialWindow_covers_last_150.2.1 bigSeries (idxRec 50) (idxRec 199)
      (by decide) (by decide) (by decide)]
    decide
  · rw [initialWindow_covers_last_150.2.2 smallSeries (idxRec 0) (idxRec 79)
      (by decide) (by decide) (by decide)]
    decide

/-! ## C8 -/

/-- C8: the Summary Reducer's division-based reduction is never
evaluated on an empty sequence — the component renders the loading
view exactly when the equity array is empty, so on zero trades the
pipeline yields the loading view without computing winRate or
totalPnL; and whenever the view branch is reached (equity non-empty)
the summary — including the last-EquityPoint indexing — is defined. -/
theorem summaryReducer_guarded_by_loading :
    (∀ (tA : List TradeRecordA) (e : List EquityPoint),
      appRenderA tA e = RenderA.loading ↔ e = []) ∧
    (∀ (tB : List TradeRecordB) (e : List EquityPoint),
      appRenderB tB e = RenderB.loading ↔ e = []) ∧
    appA [] = RenderA.loading ∧
    appB [] = RenderB.loading ∧
    (∀ (tA : List TradeRecordA) (e : List EquityPoint), e ≠ [] →
      (summaryA tA e).isSome = true) ∧
    (∀ (tB : List TradeRecordB) (e : List EquityPoint), e ≠ [] →
      (summaryB tB e).isSome = true) := by
  refine ⟨?_, ?_, rfl, rfl, ?_, ?_⟩
  · intro tA e
    rcases eq_or_ne e [] with rfl | he
    · simp [appRenderA]
    · simp [appRenderA, he, List.length_eq_zero]
  · intro tB e
    rcases eq_or_ne e [] with rfl | he
    · simp [appRenderB]
    · simp [appRenderB, he, List.length_eq_zero]
  · intro tA e he
    simp [summaryA, List.getLast?_isSome, he]
  · intro tB e he
    simp [summaryB, List.getLast?_isSome, he]

/-- Witness for C8: with one equity point present, both summaries are
defined. -/
theorem summaryReducer_guarded_by_loading_witness :
    (summaryA [] [{ date := none, pnl := some 0, equity := some 0 }]).isSome
      = true ∧
    (summaryB [] [{ date := none, pnl := some 0, equity := some 0 }]).isSome
      = true :=
  ⟨summaryReducer_guarded_by_loading.2.2.2.2.1 []
      [{ date := none, pnl := some 0, equity := some 0 }] (by decide),
    summaryReducer_guarded_by_loading.2.2.2.2.2 []
      [{ date := none, pnl := some 0, equity := some 0 }] (by decide)⟩

/-- The last equity point's equity is the rounding of the full
unrounded pnl sum. -/
theorem equityScan_getLast_equity (prec : ℕ) (l : List (Option String × JSNum))
    (h : l ≠ []) :
    ((equityScan prec (some 0) l).getLast?).map EquityPoint.equity
      = some (toFixedNum prec (jsSumFrom (some 0) (l.map Prod.snd))) := by
  have hlen : 1 ≤ l.length := by
    cases l with
    | nil => exact absurd rfl h
    | cons x xs => simp
  rw [List.getLast?_eq_get?, equityScan_length, equityScan_get?,
    List.get?_eq_get (by omega : l.length - 1 < l.length)]
  rw [Option.map_some', Option.map_some']
  show some (toFixedNum prec
    (jsSumFrom (some 0) ((l.take (l.length - 1 + 1)).map Prod.snd))) = _
  rw [Nat.sub_add_cancel hlen, List.take_length]

/-! ## C5 -/

/-- Counterexample to C5 as stated: the claim says `totalPnL` equals
the equity of the last EquityPoint, but variant B re-rounds the
6-decimal equity to 4 decimals for the total: with a single pnl of
`0.00007` the last equity is `0.00007` while `totalPnL` is `0.0001`. -/
theorem summaryReducer_totalPnL_rerounded_cex :
    (summaryB [tradeB (mkRat 7 100000)]
        (equityRowsB [tradeB (mkRat 7 100000)])).map SummaryStats.totalPnL
      ≠ (equityRowsB [tradeB (mkRat 7 100000)]).getLast?.map
          EquityPoint.equity := by decide

/-- C5 (amended): for every non-empty TradeRecord sequence with its
EquityPoint sequence, the Summary Reducer yields `totalTrades` equal
to the sequence length and `winRate` equal to
`(count of pnl > 0) / totalTrades * 100` rounded to 2 decimals; the
displayed `totalPnL` is the last EquityPoint's equity re-rounded to
the summary precision — in variant A (2 decimals) this equals the last
equity exactly, while in variant B it is the last equity rounded to 4
decimals, which can differ from the 6-decimal equity value. -/
theorem summaryReducer_formulas (tA : List TradeRecordA)
    (tB : List TradeRecordB) (hA : tA ≠ []) (hB : tB ≠ []) :
    (summaryA tA (equityRowsA tA)).map SummaryStats.totalTrades
      = some tA.length ∧
    (summaryA tA (equityRowsA tA)).map SummaryStats.winRate
      = some (some (roundQ 2 (((countWinsA tA : ℚ) / (tA.length : ℚ)) * 100))) ∧
    (summaryA tA (equityRowsA tA)).map SummaryStats.totalPnL
      = (equityRowsA tA).getLast?.map EquityPoint.equity ∧
    (summaryB tB (equityRowsB tB)).map SummaryStats.totalTrades
      = some tB.length ∧
    (summaryB tB (equityRowsB tB)).map SummaryStats.winRate
      = some (some (roundQ 2 (((countWinsB tB : ℚ) / (tB.length : ℚ)) * 100))) ∧
    (summaryB tB (equityRowsB tB)).map SummaryStats.totalPnL
      = ((equityRowsB tB).getLast?.map EquityPoint.equity).map
          (toFixedNum 4) := by
  have hlenA : (equityRowsA tA).length = tA.length := by
    simpa [equityRowsA] using equityScan_length 2 (some 0) (tA.map tradeKeyA)
  have hlenB : (equityRowsB tB).length = tB.length := by
    simpa [equityRowsB] using equityScan_length 6 (some 0) (tB.map tradeKeyB)
  have hneA : equityRowsA tA ≠ [] := by
    rw [← List.length_pos_iff_ne_nil, hlenA, List.length_pos_iff_ne_nil]
    exact hA
  have hneB : equityRowsB tB ≠ [] := by
    rw [← List.length_pos_iff_ne_nil, hlenB, List.length_pos_iff_ne_nil]
    exact hB
  rcases Option.isSome_iff_exists.mp (List.getLast?_isSome.mpr hneA) with ⟨pA, hpA⟩
  rcases Option.isSome_iff_exists.mp (List.getLast?_isSome.mpr hneB) with ⟨pB, hpB⟩
  have hntA : tA.length ≠ 0 := by
    simpa [List.length_eq_zero] using hA
  have hntB : tB.length ≠ 0 := by
    simpa [List.length_eq_zero] using hB
  have hwr : ∀ wins total : ℕ, total ≠ 0 →
      winRateVal wins total
        = some (roundQ 2 (((wins : ℚ) / (total : ℚ)) * 100)) := by
    intro wins total ht
    rw [winRateVal, if_neg ht, qdivNat_eq, qmulNat_eq]
    norm_num
  have heqA : pA.equity = toFixedNum 2 (jsSumFrom (some 0)
      ((tA.map tradeKeyA).map Prod.snd)) := by
    have := equityScan_getLast_equity 2 (tA.map tradeKeyA)
      (by simpa [List.length_eq_zero] using hntA)
    rw [show equityScan 2 (some 0) (tA.map tradeKeyA) = equityRowsA tA from rfl,
      hpA, Option.map_some'] at this
    exact Option.some.inj this
  refine ⟨?_, ?_, ?_, ?_, ?_, ?_⟩
  · rw [summaryA, hpA, Option.map_some']
    rfl
  · rw [summaryA, hpA, Option.map_some', Option.map_some',
      hwr _ _ hntA]
  · rw [summaryA, hpA, Option.map_some', Option.map_some']
    show some (toFixedNum 2 pA.equity) = some pA.equity
    rw [heqA, toFixedNum_idem]
  · rw [summaryB, hpB, Option.map_some']
    rfl
  · rw [summaryB, hpB, Option.map_some', Option.map_some',
      hwr _ _ hntB]
  · rw [summaryB, hpB, Option.map_some', Option.map_some']
    rfl

/-- Witness for C5 (amended): with pnl values `[10, -3, 5, -1]` the
win rate is `2/4*100 = 50.00`, and the displayed total PnL equals the
last equity (`11`). -/
theorem summaryReducer_formulas_witness :
    (summaryA [tradeA 10, tradeA (-3), tradeA 5, tradeA (-1)]
        (equityRowsA [tradeA 10, tradeA (-3), tradeA 5, tradeA (-1)])).map
        SummaryStats.winRate = some (some 50) ∧
    (summaryA [tradeA 10, tradeA (-3), tradeA 5, tradeA (-1)]
        (equityRowsA [tradeA 10, tradeA (-3), tradeA 5, tradeA (-1)])).map
        SummaryStats.totalPnL
      = (equityRowsA [tradeA 10, tradeA (-3), tradeA 5, tradeA (-1)]).getLast?.map
          EquityPoint.equity := by
  have h := summaryReducer_formulas
    [tradeA 10, tradeA (-3), tradeA 5, tradeA (-1)] [tradeB 1]
    (by decide) (by decide)
  refine ⟨?_, h.2.2.1⟩
  rw [h.2.1]
  rw [show countWinsA [tradeA 10, tradeA (-3), tradeA 5, tradeA (-1)] = 2
    from by decide]
  norm_num
  decide

/-! ## C9 -/

/-- Counterexample to C9 as stated: the claim says equity is the
running sum rounded to 4 or 6 decimal places, but variant A rounds to
2 places: for the single pnl `0.123456` the equity is `0.12`, which is
neither the 4-place nor the 6-place rounding of the running sum. -/
theorem equityPrecision_cex :
    (equityRowsA [tradeA (mkRat 123456 1000000)]).map EquityPoint.equity
      = [toFixedNum 2 (jsSumFrom (some 0) [some (mkRat 123456 1000000)])] ∧
    toFixedNum 2 (jsSumFrom (some 0) [some (mkRat 123456 1000000)])
      ≠ toFixedNum 4 (jsSumFrom (some 0) [some (mkRat 123456 1000000)]) ∧
    toFixedNum 2 (jsSumFrom (some 0) [some (mkRat 123456 1000000)])
      ≠ toFixedNum 6 (jsSumFrom (some 0) [some (mkRat 123456 1000000)]) := by
  decide

/-- C9 (amended): every EquityPoint's equity field is the running
(unrounded) pnl sum rounded to a fixed decimal precision — 2 places in
variant A, 6 places in variant B. -/
theorem equityPrecision_2_or_6 :
    (∀ (tA : List TradeRecordA) (i : ℕ),
      ((equityRowsA tA).get? i).map EquityPoint.equity
        = (tA.get? i).map fun _ => toFixedNum 2
            (jsSumFrom (some 0) ((tA.take (i + 1)).map TradeRecordA.pnl))) ∧
    (∀ (tB : List TradeRecordB) (i : ℕ),
      ((equityRowsB tB).get? i).map EquityPoint.equity
        = (tB.get? i).map fun _ => toFixedNum 6
            (jsSumFrom (some 0) ((tB.take (i + 1)).map TradeRecordB.pnl))) := by
  constructor
  · intro tA i
    rw [equityRowsA, equityScan_get?]
    simp only [List.get?_map, Option.map_map, ← List.map_take, List.map_map]
    rfl
  · intro tB i
    rw [equityRowsB, equityScan_get?]
    simp only [List.get?_map, Option.map_map, ← List.map_take, List.map_map]
    rfl
